import Mathlib

/-!
# Verification of the lip package-manifest model and path authority

Shallow embedding of the `toothmetadata` package (manifest decode/encode) and
the `contexts` package (path authority) of the lip package manager, together
with proofs settling the specification claims.

Conventions:
* JSON documents are modelled at the value-tree level (`Json`), i.e. the shape
  that Go's `json.Unmarshal` produces into `map[string]interface{}` and that
  `json.Encoder` serialises; byte-level JSON parsing is Go standard-library
  behaviour outside the repository.
* Go type assertions on `interface` values are modelled by pattern matches;
  a failed assertion (missing key or wrong dynamic type) is a run-time panic,
  modelled by the `DRes.panicked` outcome.
* Go `map[string]T` values are order-free; we represent them canonically as
  association lists sorted by key, matching `encoding/json`'s sorted-key
  marshalling of maps.
-/

namespace LipSpec

/-! ## Decimal numerals

Digit-level helpers used by the (spec-modelled) semantic-version grammar. -/

/-- The decimal digit character of a digit `d < 10`. -/
def digitChar : Nat → Char
  | 0 => '0' | 1 => '1' | 2 => '2' | 3 => '3' | 4 => '4'
  | 5 => '5' | 6 => '6' | 7 => '7' | 8 => '8' | _ => '9'

/-- The numeric value of a decimal digit character. -/
def charDigit (c : Char) : Nat := c.toNat - 48

/-- Whether a character is a decimal digit `0`–`9`. -/
def isDigitChar (c : Char) : Bool := 48 ≤ c.toNat && c.toNat ≤ 57

/-- Little-endian decimal digits, structurally recursive on a fuel bound
(so that the kernel can evaluate it); agrees with `Nat.digits 10` whenever
the fuel dominates the number. -/
def natDigitsAux : Nat → Nat → List Nat
  | _, 0 => []
  | 0, _ + 1 => []
  | fuel + 1, n + 1 => (n + 1) % 10 :: natDigitsAux fuel ((n + 1) / 10)

theorem natDigitsAux_eq : ∀ (fuel n : Nat), n ≤ fuel →
    natDigitsAux fuel n = Nat.digits 10 n := by
  intro fuel
  induction fuel with
  | zero =>
    intro n hn
    interval_cases n
    simp [natDigitsAux]
  | succ f ih =>
    intro n hn
    cases n with
    | zero => simp [natDigitsAux]
    | succ k =>
      rw [natDigitsAux, Nat.digits_def' (by norm_num) (Nat.succ_pos k)]
      rw [ih ((k + 1) / 10) (by omega)]

/-- Big-endian decimal digit characters of a natural number. -/
def natChars (n : Nat) : List Char :=
  if n = 0 then ['0'] else ((natDigitsAux n n).map digitChar).reverse

/-- `natChars` in terms of `Nat.digits`. -/
theorem natChars_eq_digits (n : Nat) :
    natChars n = if n = 0 then ['0'] else ((Nat.digits 10 n).map digitChar).reverse := by
  unfold natChars
  rw [natDigitsAux_eq n n le_rfl]

/-- Parse a big-endian list of decimal digit characters into a natural
number; `none` if the list is empty or contains a non-digit. -/
def parseNatChars (l : List Char) : Option Nat :=
  if l ≠ [] ∧ l.all isDigitChar then
    some (Nat.ofDigits 10 ((l.map charDigit).reverse))
  else none

theorem charDigit_digitChar {d : Nat} (h : d < 10) : charDigit (digitChar d) = d := by
  interval_cases d <;> rfl

theorem isDigitChar_digitChar {d : Nat} (h : d < 10) : isDigitChar (digitChar d) = true := by
  interval_cases d <;> rfl

theorem parseNatChars_natChars (n : Nat) : parseNatChars (natChars n) = some n := by
  by_cases h0 : n = 0
  · subst h0; rfl
  · have hne : Nat.digits 10 n ≠ [] := Nat.digits_ne_nil_iff_ne_zero.mpr h0
    have hlt : ∀ d ∈ Nat.digits 10 n, d < 10 := fun d hd =>
      Nat.digits_lt_base (by norm_num) hd
    rw [natChars_eq_digits]
    unfold parseNatChars
    rw [if_neg h0]
    have hnonnil : ((Nat.digits 10 n).map digitChar).reverse ≠ [] := by
      simp [hne]
    have hall : (((Nat.digits 10 n).map digitChar).reverse).all isDigitChar = true := by
      rw [List.all_eq_true]
      intro c hc
      rw [List.mem_reverse, List.mem_map] at hc
      obtain ⟨d, hd, rfl⟩ := hc
      exact isDigitChar_digitChar (hlt d hd)
    rw [if_pos ⟨hnonnil, hall⟩]
    congr 1
    rw [List.map_reverse, List.reverse_reverse, List.map_map]
    have hmap : (Nat.digits 10 n).map (charDigit ∘ digitChar) = Nat.digits 10 n := by
      conv_rhs => rw [← List.map_id (Nat.digits 10 n)]
      exact List.map_congr_left fun d hd => charDigit_digitChar (hlt d hd)
    rw [hmap, Nat.ofDigits_digits]

theorem natChars_ne_nil (n : Nat) : natChars n ≠ [] := by
  rw [natChars_eq_digits]
  split
  · simp
  · simp [Nat.digits_ne_nil_iff_ne_zero, *]

/-- Every character of a decimal numeral is a digit character. -/
theorem natChars_all_digit (n : Nat) : ∀ c ∈ natChars n, isDigitChar c = true := by
  intro c hc
  rw [natChars_eq_digits] at hc
  split at hc
  · rw [List.mem_singleton] at hc
    subst hc; rfl
  · rw [List.mem_reverse, List.mem_map] at hc
    obtain ⟨d, hd, rfl⟩ := hc
    exact isDigitChar_digitChar (Nat.digits_lt_base (by norm_num) hd)

theorem digit_ne_dot {c : Char} (h : isDigitChar c = true) : c ≠ '.' := by
  intro he; subst he; simp [isDigitChar] at h

theorem digit_ne_dash {c : Char} (h : isDigitChar c = true) : c ≠ '-' := by
  intro he; subst he; simp [isDigitChar] at h

/-! ## Semantic versions

Modelled from the spec: the package `utils/version` (`versionutils`) is not
under `src/`; the spec describes a Version as "a semantic version
(major.minor.patch plus optional pre-release label), totally ordered; parsed
from and rendered to a canonical string form; invalid strings fail to
parse". We model the three numeric components, an optional pre-release label
(the empty string standing for "absent"), rendering to the canonical
`maj.min.patch[-pre]` form, and a parser over that grammar. -/

/-- A semantic version. `preRelease = ""` means no pre-release label. -/
structure Version where
  major : Nat
  minor : Nat
  patch : Nat
  preRelease : String
deriving DecidableEq, Repr

/-- Split a character list at the first `'-'`: the part before it, and
`some` of the part after it (or `none` when no `'-'` occurs). -/
def splitDash : List Char → List Char × Option (List Char)
  | [] => ([], none)
  | c :: rest =>
    if c = '-' then ([], some rest)
    else
      let r := splitDash rest
      (c :: r.1, r.2)

/-- Split a character list on every `'.'`. -/
def splitDots : List Char → List (List Char)
  | [] => [[]]
  | c :: rest =>
    if c = '.' then [] :: splitDots rest
    else
      match splitDots rest with
      | [] => [[c]]
      | g :: gs => (c :: g) :: gs

/-- The `major.minor.patch` character block of a version's rendering. -/
def versionBase (v : Version) : List Char :=
  natChars v.major ++ '.' :: (natChars v.minor ++ '.' :: natChars v.patch)

/-- The canonical character rendering of a version. -/
def Version.chars (v : Version) : List Char :=
  versionBase v ++ (if v.preRelease = "" then [] else '-' :: v.preRelease.data)

/-- Modelled from the spec: `versionutils.Version.String`, the canonical
string form of a version. -/
def Version.toStr (v : Version) : String := String.mk v.chars

/-- Interpret the two halves produced by `splitDash`. -/
def Version.parseParts (base : List Char) (pre : Option (List Char))
    (orig : List Char) : Except String Version :=
  match splitDots base with
  | [a, b, c] =>
    match parseNatChars a, parseNatChars b, parseNatChars c with
    | some x, some y, some z =>
      .ok ⟨x, y, z, match pre with | none => "" | some p => String.mk p⟩
    | _, _, _ => .error ("invalid version: " ++ String.mk orig)
  | _ => .error ("invalid version: " ++ String.mk orig)

/-- Parse a version from its character list. -/
def Version.newFromChars (l : List Char) : Except String Version :=
  Version.parseParts (splitDash l).1 (splitDash l).2 l

/-- Modelled from the spec: `versionutils.NewFromString`, parsing a version
from its string form; invalid strings fail to parse. -/
def Version.newFromString (s : String) : Except String Version :=
  Version.newFromChars s.data

theorem splitDash_no_dash {l : List Char} (h : ∀ c ∈ l, c ≠ '-') :
    splitDash l = (l, none) := by
  induction l with
  | nil => rfl
  | cons c rest ih =>
    have hc : c ≠ '-' := h c (List.mem_cons_self c rest)
    simp only [splitDash, if_neg hc, ih fun d hd => h d (List.mem_cons_of_mem c hd)]

theorem splitDash_append {a p : List Char} (h : ∀ c ∈ a, c ≠ '-') :
    splitDash (a ++ '-' :: p) = (a, some p) := by
  induction a with
  | nil => simp [splitDash]
  | cons c rest ih =>
    have hc : c ≠ '-' := h c (List.mem_cons_self c rest)
    simp only [List.cons_append, splitDash, if_neg hc, List.append_eq,
      ih fun d hd => h d (List.mem_cons_of_mem c hd)]

theorem splitDots_no_dot {l : List Char} (h : ∀ c ∈ l, c ≠ '.') :
    splitDots l = [l] := by
  induction l with
  | nil => rfl
  | cons c rest ih =>
    have hc : c ≠ '.' := h c (List.mem_cons_self c rest)
    simp only [splitDots, if_neg hc, ih fun d hd => h d (List.mem_cons_of_mem c hd)]

theorem splitDots_ne_nil (l : List Char) : splitDots l ≠ [] := by
  cases l with
  | nil => simp [splitDots]
  | cons c rest =>
    simp only [splitDots]
    split
    · simp
    · split <;> simp

theorem splitDots_append {a rest : List Char} (h : ∀ c ∈ a, c ≠ '.') :
    splitDots (a ++ '.' :: rest) = a :: splitDots rest := by
  induction a with
  | nil => simp [splitDots]
  | cons c tl ih =>
    have hc : c ≠ '.' := h c (List.mem_cons_self c tl)
    have ih' := ih fun d hd => h d (List.mem_cons_of_mem c hd)
    simp only [List.cons_append, splitDots, if_neg hc, List.append_eq, ih']

/-- A character that is not a digit never occurs in a decimal numeral. -/
theorem not_mem_natChars {c : Char} (h : isDigitChar c = false) (n : Nat) :
    c ∉ natChars n := by
  intro hc
  rw [natChars_all_digit n c hc] at h
  cases h

theorem versionBase_no_dash (v : Version) : ∀ c ∈ versionBase v, c ≠ '-' := by
  intro c hc he
  subst he
  simp only [versionBase, List.mem_append, List.mem_cons] at hc
  rcases hc with h | h | h | h | h
  · exact not_mem_natChars (by decide) _ h
  · cases h
  · exact not_mem_natChars (by decide) _ h
  · cases h
  · exact not_mem_natChars (by decide) _ h

theorem splitDash_chars (v : Version) :
    splitDash v.chars =
      (versionBase v, if v.preRelease = "" then none else some v.preRelease.data) := by
  unfold Version.chars
  by_cases hp : v.preRelease = ""
  · rw [if_pos hp, if_pos hp, List.append_nil]
    exact splitDash_no_dash (versionBase_no_dash v)
  · rw [if_neg hp, if_neg hp]
    exact splitDash_append (versionBase_no_dash v)

theorem splitDots_versionBase (v : Version) :
    splitDots (versionBase v) =
      [natChars v.major, natChars v.minor, natChars v.patch] := by
  have hd : ∀ n : Nat, ∀ c ∈ natChars n, c ≠ '.' :=
    fun n c hc => digit_ne_dot (natChars_all_digit n c hc)
  unfold versionBase
  rw [splitDots_append (hd v.major), splitDots_append (hd v.minor),
    splitDots_no_dot (hd v.patch)]

/-- Parsing the canonical rendering of any version yields that version:
the spec's "parsed from and rendered to a canonical string form". -/
theorem Version.newFromChars_chars (v : Version) :
    Version.newFromChars v.chars = .ok v := by
  show Version.parseParts (splitDash v.chars).1 (splitDash v.chars).2 v.chars = .ok v
  rw [splitDash_chars]
  show Version.parseParts (versionBase v)
    (if v.preRelease = "" then none else some v.preRelease.data) v.chars = .ok v
  simp only [Version.parseParts, splitDots_versionBase, parseNatChars_natChars]
  by_cases hp : v.preRelease = ""
  · rw [if_pos hp]
    cases v with
    | mk a b c p => simp_all
  · rw [if_neg hp]

/-- String-level version round-trip. -/
theorem Version.newFromString_toStr (v : Version) :
    Version.newFromString v.toStr = .ok v :=
  Version.newFromChars_chars v

/-- Strict order on versions: lexicographic on the numeric components, then
a version with a pre-release label precedes the same numeric version
without one; distinct labels compare as strings. Modelled from the spec:
versions are "totally ordered". -/
def Version.ltb (a b : Version) : Bool :=
  if a.major ≠ b.major then a.major < b.major
  else if a.minor ≠ b.minor then a.minor < b.minor
  else if a.patch ≠ b.patch then a.patch < b.patch
  else if a.preRelease = b.preRelease then false
  else if b.preRelease = "" then true
  else if a.preRelease = "" then false
  else decide (a.preRelease < b.preRelease)

/-! ## Version matches

Modelled from the spec: the package `utils/version/versionmatch` is not under
`src/`; the spec describes a VersionMatch as "a predicate over a single
Version (e.g., exact version, range bound ...); parsed from a compact string
grammar; evaluates to true/false against a candidate Version". We model the
exact form (a bare version string) and the four range-bound forms
(`>=`, `>`, `<=`, `<` followed by a version string). -/

/-- The comparison kind of a version match. -/
inductive MatchKind where
  | eq | ge | gt | le | lt
deriving DecidableEq, Repr

/-- A single version-match predicate: a comparison kind and a bound. -/
structure VersionMatch where
  kind : MatchKind
  version : Version
deriving DecidableEq, Repr

/-- The compact-grammar prefix of a match kind. -/
def MatchKind.chars : MatchKind → List Char
  | .eq => []
  | .ge => ['>', '=']
  | .gt => ['>']
  | .le => ['<', '=']
  | .lt => ['<']

/-- Modelled from the spec: `versionmatch.VersionMatch.String`, the canonical
string form of a version match. -/
def VersionMatch.toStr (vm : VersionMatch) : String :=
  String.mk (vm.kind.chars ++ vm.version.chars)

/-- Modelled from the spec: `versionmatch.NewFromString`, parsing a version
match from the compact string grammar. -/
def VersionMatch.newFromString (s : String) : Except String VersionMatch :=
  match s.data with
  | '>' :: '=' :: rest => (Version.newFromChars rest).map fun v => ⟨.ge, v⟩
  | '>' :: rest => (Version.newFromChars rest).map fun v => ⟨.gt, v⟩
  | '<' :: '=' :: rest => (Version.newFromChars rest).map fun v => ⟨.le, v⟩
  | '<' :: rest => (Version.newFromChars rest).map fun v => ⟨.lt, v⟩
  | rest => (Version.newFromChars rest).map fun v => ⟨.eq, v⟩

/-- The first character of a version rendering is a decimal digit. -/
theorem chars_head_digit (v : Version) :
    ∃ c rest, v.chars = c :: rest ∧ isDigitChar c = true := by
  unfold Version.chars versionBase
  cases hm : natChars v.major with
  | nil => exact absurd hm (natChars_ne_nil v.major)
  | cons c cs =>
    refine ⟨c, cs ++ '.' :: (natChars v.minor ++ '.' :: natChars v.patch) ++
      (if v.preRelease = "" then [] else '-' :: v.preRelease.data), by simp, ?_⟩
    exact natChars_all_digit v.major c (hm ▸ List.mem_cons_self c cs)

/-- Match round-trip: parsing the canonical rendering of any version match
yields that match back. -/
theorem VersionMatch.toStr_roundtrip (vm : VersionMatch) :
    VersionMatch.newFromString vm.toStr = .ok vm := by
  obtain ⟨c, rest, hchars, hdig⟩ := chars_head_digit vm.version
  have hne1 : c ≠ '>' := by intro h; subst h; simp [isDigitChar] at hdig
  have hne2 : c ≠ '<' := by intro h; subst h; simp [isDigitChar] at hdig
  have hne3 : c ≠ '=' := by intro h; subst h; simp [isDigitChar] at hdig
  have hv := Version.newFromChars_chars vm.version
  cases vm with
  | mk k ver =>
    cases k <;>
      simp_all [VersionMatch.toStr, VersionMatch.newFromString, MatchKind.chars,
        hchars, Except.map]

/-- Modelled from the spec (§4.2): `Matches(VersionMatch, Version)`, the
atomic predicate evaluating a match against a candidate version. -/
def VersionMatch.matchesVer (vm : VersionMatch) (v : Version) : Bool :=
  match vm.kind with
  | .eq => v = vm.version
  | .ge => !(Version.ltb v vm.version)
  | .gt => Version.ltb vm.version v
  | .le => !(Version.ltb vm.version v)
  | .lt => Version.ltb v vm.version

/-- Modelled from the spec (§3): a candidate version satisfies a dependency
constraint entry (an ordered list of OR-groups, each an ordered list of
matches) iff it satisfies all matches in at least one outer group. -/
def satisfiesEntry (entry : List (List VersionMatch)) (v : Version) : Bool :=
  entry.any fun group => group.all fun vm => vm.matchesVer v

/-- Modelled from the spec (§4.2): `Satisfies(DependencyConstraintSet, path,
Version)` — false when the path is absent from the set. -/
def satisfiesDeps (deps : List (String × List (List VersionMatch)))
    (path : String) (v : Version) : Bool :=
  match deps.lookup path with
  | none => false
  | some entry => satisfiesEntry entry v

/-! ## Tooth paths and lower-casing -/

/-- ASCII lower-casing of one character, the fragment of Go's
`strings.ToLower` exercised by the manifest model (`A`–`Z` map to
`a`–`z`, everything else is unchanged). -/
def goToLowerChar (c : Char) : Char :=
  if 65 ≤ c.toNat ∧ c.toNat ≤ 90 then Char.ofNat (c.toNat + 32) else c

/-- Go's `strings.ToLower`, modelled character-wise. -/
def goToLower (s : String) : String := String.mk (s.data.map goToLowerChar)

/-- Characters admitted by the modelled tooth-path predicate. -/
def toothPathChar (c : Char) : Bool :=
  (97 ≤ c.toNat && c.toNat ≤ 122) || (48 ≤ c.toNat && c.toNat ≤ 57) ||
    c = '.' || c = '/' || c = '-' || c = '_'

/-- Modelled from the spec: `tooth.IsValidToothPath` (external capability,
not under `src/`). The spec describes a package path as a "lower-cased,
validated package-path identity" such as `author/name` or
`com.example/pkg`; we model validity as: non-empty, and every character a
lower-case ASCII letter, digit, `.`, `/`, `-` or `_`. -/
def IsValidToothPath (s : String) : Bool :=
  !s.data.isEmpty && s.data.all toothPathChar

/-- Valid tooth paths contain no upper-case letters, so lower-casing them
is the identity. -/
theorem goToLower_of_valid {s : String} (h : IsValidToothPath s = true) :
    goToLower s = s := by
  unfold IsValidToothPath at h
  rw [Bool.and_eq_true, List.all_eq_true] at h
  unfold goToLower
  have : s.data.map goToLowerChar = s.data := by
    conv_rhs => rw [← List.map_id s.data]
    refine List.map_congr_left fun c hc => ?_
    have hcc := h.2 c hc
    unfold toothPathChar at hcc
    unfold goToLowerChar
    rw [if_neg ?_]
    · rfl
    · intro ⟨h1, h2⟩
      simp only [Bool.or_eq_true, Bool.and_eq_true, decide_eq_true_eq] at hcc
      rcases hcc with ((((hr | hr) | hr) | hr) | hr) | hr <;>
        first
          | omega
          | (subst hr; revert h1 h2; decide)
  rw [this]

/-! ## JSON value trees and the metadata decoder

`Json` is the value tree produced by `json.Unmarshal` into
`map[string]interface{}` (objects as association lists with the unique keys
`Unmarshal` guarantees, numbers simplified to integers — the decoder never
reads a number, it only panics on one). `DRes` is the outcome of a Go
function returning `(Metadata, error)`: a value, a returned error, or a
run-time panic from a failed type assertion. -/

/-- A JSON value tree. -/
inductive Json where
  | null
  | bool (b : Bool)
  | num (n : Int)
  | str (s : String)
  | arr (elems : List Json)
  | obj (entries : List (String × Json))

/-- Outcome of running `NewFromJSON`: a metadata value, a returned decode
error, or a run-time panic from a failed type assertion. -/
inductive DRes (α : Type) where
  | ok (a : α)
  | err (msg : String)
  | panicked
deriving DecidableEq, Repr

/-- `toothmetadata.InfoStruct`. -/
structure InfoStruct where
  name : String
  description : String
  author : String
  license : String
  homepage : String
deriving DecidableEq, Repr

/-- `toothmetadata.PlacementStruct`. -/
structure PlacementStruct where
  source : String
  destination : String
deriving DecidableEq, Repr

/-- `toothmetadata.Metadata`. The Go field `Dependencies` is a
`map[string][][]versionmatch.VersionMatch`; being a Go map it is
order-free, and we represent it canonically as an association list sorted
by key (the order `encoding/json` uses when marshalling a map). -/
structure Metadata where
  toothPath : String
  version : Version
  dependencies : List (String × List (List VersionMatch))
  information : InfoStruct
  placement : List PlacementStruct
deriving DecidableEq, Repr

/-- Key order used to keep dependency maps in canonical (sorted) form. -/
def depLE {α : Type} (p q : String × α) : Prop := p.1 ≤ q.1

instance {α : Type} : DecidableRel (@depLE α) :=
  fun p q => inferInstanceAs (Decidable (p.1 ≤ q.1))

instance {α : Type} : IsTotal (String × α) depLE :=
  ⟨fun a b => le_total a.1 b.1⟩

instance {α : Type} : IsTrans (String × α) depLE :=
  ⟨fun _ _ _ h1 h2 => le_trans h1 h2⟩

/-- Canonical representation of a Go `map[string]α`: the association list
sorted by key. -/
def sortDeps {α : Type} (l : List (String × α)) : List (String × α) :=
  l.insertionSort depLE

theorem sortDeps_sorted {α : Type} (l : List (String × α)) :
    List.Sorted depLE (sortDeps l) :=
  List.sorted_insertionSort depLE l

theorem sortDeps_idem {α : Type} (l : List (String × α)) :
    sortDeps (sortDeps l) = sortDeps l :=
  (sortDeps_sorted l).insertionSort_eq

/-! ### The placement-token pattern

The source checks each placement token with the anchored regular expression
`^[a-zA-Z0-9]\S*$` through `reg.FindString(tok) != tok`. Since the pattern
is anchored on both sides, any match is the whole string, so `FindString`
returns the string itself when it matches the pattern in full and the empty
string otherwise (Go's `FindString` returns `""` when there is no match). -/

/-- RE2's `\s` class: `[\t\n\f\r ]`. -/
def goIsSpace (c : Char) : Bool :=
  c = ' ' || c = '\t' || c = '\n' || c = Char.ofNat 12 || c = '\r'

/-- ASCII alphanumeric, the class `[a-zA-Z0-9]`. -/
def isAlphaNumChar (c : Char) : Bool :=
  (65 ≤ c.toNat && c.toNat ≤ 90) || (97 ≤ c.toNat && c.toNat ≤ 122) ||
    (48 ≤ c.toNat && c.toNat ≤ 57)

/-- Whether a string matches `^[a-zA-Z0-9]\S*$` in full. -/
def placementFullMatch (s : String) : Bool :=
  match s.data with
  | [] => false
  | c :: rest => isAlphaNumChar c && rest.all fun d => !goIsSpace d

/-- Go's `reg.FindString(s)` for the anchored placement pattern: the whole
string on a full match, the empty string otherwise. -/
def placementFindString (s : String) : String :=
  if placementFullMatch s then s else ""

/-! ### The decoder -/

/-- Decode the inner (AND) list of one dependency OR-group:
`versionMatch.(string)` panics on a non-string element, and a parse
failure returns the wrapped error. -/
def decodeMatchList : List Json → DRes (List VersionMatch)
  | [] => .ok []
  | .str s :: rest =>
    match VersionMatch.newFromString s with
    | .error e => .err ("failed to decode JSON into metadata: " ++ e)
    | .ok vm =>
      match decodeMatchList rest with
      | .ok vms => .ok (vm :: vms)
      | .err e => .err e
      | .panicked => .panicked
  | _ :: _ => .panicked

/-- Decode the outer (OR) list of one dependency entry:
`versionMatchInnerList.([]interface{})` panics on a non-array element. -/
def decodeOuterList : List Json → DRes (List (List VersionMatch))
  | [] => .ok []
  | .arr inner :: rest =>
    match decodeMatchList inner with
    | .err e => .err e
    | .panicked => .panicked
    | .ok g =>
      match decodeOuterList rest with
      | .ok gs => .ok (g :: gs)
      | .err e => .err e
      | .panicked => .panicked
  | _ :: _ => .panicked

/-- Decode the entries of the `dependencies` object. The Go code ranges
over the unmarshalled map in unspecified order; order is irrelevant to the
decoded map value, and we fix document order for the error case.
`versionMatchOuterList.([]interface{})` panics on a non-array value. -/
def decodeDepsList : List (String × Json) →
    DRes (List (String × List (List VersionMatch)))
  | [] => .ok []
  | (key, .arr outer) :: rest =>
    match decodeOuterList outer with
    | .err e => .err e
    | .panicked => .panicked
    | .ok entry =>
      match decodeDepsList rest with
      | .ok entries => .ok ((key, entry) :: entries)
      | .err e => .err e
      | .panicked => .panicked
  | (_, _) :: _ => .panicked

/-- One `information` field: `map["information"].(map[string]interface{})
["name"].(string)` panics when the field is absent or not a string. -/
def infoField (entries : List (String × Json)) (key : String) : DRes String :=
  match entries.lookup key with
  | some (.str s) => .ok s
  | _ => .panicked

/-- Decode the five `information` fields, in source order. -/
def decodeInfo (entries : List (String × Json)) : DRes InfoStruct :=
  match infoField entries "name" with
  | .err e => .err e
  | .panicked => .panicked
  | .ok name =>
    match infoField entries "description" with
    | .err e => .err e
    | .panicked => .panicked
    | .ok description =>
      match infoField entries "author" with
      | .err e => .err e
      | .panicked => .panicked
      | .ok author =>
        match infoField entries "license" with
        | .err e => .err e
        | .panicked => .panicked
        | .ok license =>
          match infoField entries "homepage" with
          | .err e => .err e
          | .panicked => .panicked
          | .ok homepage => .ok ⟨name, description, author, license, homepage⟩

/-- Decode the `placement` list: each element must be an object whose
`source`/`destination` are strings (else panic); each token is then checked
against the placement pattern via `FindString(tok) != tok`. -/
def decodePlacement : List Json → DRes (List PlacementStruct)
  | [] => .ok []
  | .obj pkvs :: rest =>
    match pkvs.lookup "source" with
    | some (.str source) =>
      match pkvs.lookup "destination" with
      | some (.str destination) =>
        if placementFindString source ≠ source then
          .err ("failed to decode JSON into metadata: invalid source: " ++ source)
        else if placementFindString destination ≠ destination then
          .err ("failed to decode JSON into metadata: invalid destination: " ++
            destination)
        else
          match decodePlacement rest with
          | .ok ps => .ok (⟨source, destination⟩ :: ps)
          | .err e => .err e
          | .panicked => .panicked
      | _ => .panicked
    | _ => .panicked
  | _ :: _ => .panicked

/-- `toothmetadata.NewFromJSON`, stage by stage in source order. The input
is the value tree `json.Unmarshal` produced; a non-object document is the
`Unmarshal` type error (returned, not a panic), and each failed type
assertion on the tree is a panic. -/
def NewFromJSON (j : Json) : DRes Metadata :=
  match j with
  | .obj kvs =>
    match kvs.lookup "tooth" with
    | some (.str tooth) =>
      if IsValidToothPath (goToLower tooth) then
        match kvs.lookup "version" with
        | some (.str versionStr) =>
          match Version.newFromString versionStr with
          | .error e => .err ("failed to decode JSON into metadata: " ++ e)
          | .ok version =>
            match kvs.lookup "dependencies" with
            | some (.obj depEntries) =>
              match decodeDepsList depEntries with
              | .err e => .err e
              | .panicked => .panicked
              | .ok deps =>
                match kvs.lookup "information" with
                | some (.obj infoEntries) =>
                  match decodeInfo infoEntries with
                  | .err e => .err e
                  | .panicked => .panicked
                  | .ok information =>
                    match kvs.lookup "placement" with
                    | some (.arr placementElems) =>
                      match decodePlacement placementElems with
                      | .err e => .err e
                      | .panicked => .panicked
                      | .ok placement =>
                        .ok ⟨goToLower tooth, version, sortDeps deps,
                          information, placement⟩
                    | _ => .panicked
                | _ => .panicked
            | _ => .panicked
        | _ => .panicked
      else
        .err ("failed to decode JSON into metadata: invalid tooth path: " ++
          goToLower tooth)
    | _ => .panicked
  | _ => .err "failed to decode JSON into metadata: json: cannot unmarshal value"

/-! ## The encoder, `Metadata.JSON`

`Metadata.JSON` builds a `map[string]interface{}` mirroring the document
shape and hands it to a `json.Encoder` with `SetIndent("", "  ")` and
`SetEscapeHTML(false)`. `encoding/json` marshals maps with their keys
sorted, so the tree below lists object keys in sorted order, and the
dependency map is emitted in its canonical sorted order. -/

/-- One OR-group of a dependency entry, rendered to strings. -/
def encodeMatchGroup (g : List VersionMatch) : Json :=
  .arr (g.map fun vm => .str vm.toStr)

/-- The `dependencies` object, keys in sorted (Go map marshal) order. -/
def encodeDeps (deps : List (String × List (List VersionMatch))) : Json :=
  .obj ((sortDeps deps).map fun e => (e.1, .arr (e.2.map encodeMatchGroup)))

/-- The `information` object (keys sorted). -/
def InfoStruct.toJson (i : InfoStruct) : Json :=
  .obj [("author", .str i.author), ("description", .str i.description),
    ("homepage", .str i.homepage), ("license", .str i.license),
    ("name", .str i.name)]

/-- The `placement` array (keys of each element sorted). -/
def encodePlacement (l : List PlacementStruct) : Json :=
  .arr (l.map fun p => .obj [("destination", .str p.destination),
    ("source", .str p.source)])

/-- The value tree `Metadata.JSON` hands to the encoder (top-level keys in
sorted order). -/
def Metadata.toJsonTree (m : Metadata) : Json :=
  .obj [("dependencies", encodeDeps m.dependencies),
    ("information", m.information.toJson),
    ("placement", encodePlacement m.placement),
    ("tooth", .str m.toothPath),
    ("version", .str m.version.toStr)]

/-! ### The serializer

Go's `json.Encoder` with `SetIndent("", "  ")` and `SetEscapeHTML(false)`,
modelled byte-for-byte: 2-space indentation per nesting level, `", "` after
keys, a trailing newline from `Encode`, and string escaping that escapes
only `"`, `\` and control characters below `0x20` — leaving `<`, `>`, `&`
and the line separators U+2028/U+2029 literal. -/

/-- Lower-case hexadecimal digit. -/
def hexChar (d : Nat) : Char :=
  if d < 10 then digitChar d
  else if d = 10 then 'a' else if d = 11 then 'b' else if d = 12 then 'c'
  else if d = 13 then 'd' else if d = 14 then 'e' else 'f'

/-- JSON string escaping of one character with HTML escaping disabled. -/
def jsonEscapeChar (c : Char) : List Char :=
  if c = '"' then ['\\', '"']
  else if c = '\\' then ['\\', '\\']
  else if c = '\n' then ['\\', 'n']
  else if c = '\r' then ['\\', 'r']
  else if c = '\t' then ['\\', 't']
  else if c.toNat < 32 then
    ['\\', 'u', '0', '0', hexChar (c.toNat / 16), hexChar (c.toNat % 16)]
  else [c]

/-- A JSON string literal. -/
def serializeString (s : String) : String :=
  String.mk ('"' :: s.data.foldr (fun c acc => jsonEscapeChar c ++ acc) ['"'])

mutual

/-- Serialize a value; `pre` is the current line prefix (the indentation of
the enclosing value). -/
def serializeJson (pre : String) : Json → String
  | .null => "null"
  | .bool b => if b then "true" else "false"
  | .num n => toString n
  | .str s => serializeString s
  | .arr [] => "[]"
  | .arr (x :: xs) =>
    "[\n" ++ serializeElems (pre ++ "  ") (x :: xs) ++ "\n" ++ pre ++ "]"
  | .obj [] => "\x7b\x7d"
  | .obj (e :: es) =>
    "\x7b\n" ++ serializeEntries (pre ++ "  ") (e :: es) ++ "\n" ++ pre ++ "\x7d"

/-- Serialize array elements, one per line, comma-separated. -/
def serializeElems (pre : String) : List Json → String
  | [] => ""
  | [x] => pre ++ serializeJson pre x
  | x :: y :: rest =>
    pre ++ serializeJson pre x ++ ",\n" ++ serializeElems pre (y :: rest)

/-- Serialize object entries, one per line, comma-separated. -/
def serializeEntries (pre : String) : List (String × Json) → String
  | [] => ""
  | [(k, v)] => pre ++ serializeString k ++ ": " ++ serializeJson pre v
  | (k, v) :: e :: rest =>
    pre ++ serializeString k ++ ": " ++ serializeJson pre v ++ ",\n" ++
      serializeEntries pre (e :: rest)

end

/-- `toothmetadata.Metadata.JSON`. The Go error branch surfaces
`encoder.Encode` failures; `Encode` into a `bytes.Buffer` fails only on
values `encoding/json` cannot marshal (cycles, channels, NaN, a failing
writer), and the tree built here is strings, arrays and string-keyed maps
written to an in-memory buffer, so in this embedding the encoder is total
and the error branch is unreachable. `Encode` terminates the output with a
newline. -/
def Metadata.JSON (m : Metadata) : Except String String :=
  .ok (serializeJson "" m.toJsonTree ++ "\n")

/-! ## Round-trip lemmas -/

theorem decodeMatchList_encode (g : List VersionMatch) :
    decodeMatchList (g.map fun vm => .str vm.toStr) = .ok g := by
  induction g with
  | nil => rfl
  | cons vm rest ih =>
    simp only [List.map_cons, decodeMatchList, VersionMatch.toStr_roundtrip, ih]

theorem decodeOuterList_encode (og : List (List VersionMatch)) :
    decodeOuterList (og.map encodeMatchGroup) = .ok og := by
  induction og with
  | nil => rfl
  | cons g rest ih =>
    simp only [List.map_cons, encodeMatchGroup, decodeOuterList, ih,
      decodeMatchList_encode]

theorem decodeDepsList_encode (l : List (String × List (List VersionMatch))) :
    decodeDepsList (l.map fun e => (e.1, Json.arr (e.2.map encodeMatchGroup))) =
      .ok l := by
  induction l with
  | nil => rfl
  | cons e rest ih =>
    simp only [List.map_cons, decodeDepsList, decodeOuterList_encode, ih]

/-- A placement token accepted by the source check. -/
def tokenOK (s : String) : Prop := placementFindString s = s

instance (s : String) : Decidable (tokenOK s) :=
  inferInstanceAs (Decidable (placementFindString s = s))

theorem decodePlacement_encode (l : List PlacementStruct)
    (h : ∀ p ∈ l, tokenOK p.source ∧ tokenOK p.destination) :
    decodePlacement (l.map fun p => Json.obj [("destination", .str p.destination),
      ("source", .str p.source)]) = .ok l := by
  induction l with
  | nil => rfl
  | cons p rest ih =>
    obtain ⟨hs, hd⟩ := h p (List.mem_cons_self p rest)
    have ih' := ih fun q hq => h q (List.mem_cons_of_mem p hq)
    rw [tokenOK] at hs hd
    simp only [List.map_cons, decodePlacement, List.lookup]
    simp only [show (("source" : String) == "destination") = false from rfl,
      show (("source" : String) == "source") = true from rfl,
      show (("destination" : String) == "destination") = true from rfl]
    rw [if_neg (by simp [hs]), if_neg (by simp [hd]), ih']

/-- The invariant the validated decode path establishes: a valid tooth
path, a canonically sorted dependency map, and placement tokens that pass
the source check. -/
def ValidMetadata (m : Metadata) : Prop :=
  IsValidToothPath m.toothPath = true ∧
    sortDeps m.dependencies = m.dependencies ∧
    ∀ p ∈ m.placement, tokenOK p.source ∧ tokenOK p.destination

instance (m : Metadata) : Decidable (ValidMetadata m) :=
  inferInstanceAs (Decidable (_ ∧ _ ∧ _))

/-- Decoding the tree encoded from any metadata value satisfying the
decode-path invariant returns that value unchanged. -/
theorem NewFromJSON_toJsonTree {m : Metadata} (h : ValidMetadata m) :
    NewFromJSON m.toJsonTree = .ok m := by
  obtain ⟨htooth, hdeps, hplace⟩ := h
  have hlower : goToLower m.toothPath = m.toothPath := goToLower_of_valid htooth
  have hinfo : decodeInfo [("author", Json.str m.information.author),
      ("description", .str m.information.description),
      ("homepage", .str m.information.homepage),
      ("license", .str m.information.license),
      ("name", .str m.information.name)] = .ok m.information := rfl
  have hplc := decodePlacement_encode m.placement hplace
  have hdl := decodeDepsList_encode (sortDeps m.dependencies)
  simp only [Metadata.toJsonTree, NewFromJSON, encodeDeps, InfoStruct.toJson,
    encodePlacement, List.lookup]
  simp only [show (("tooth" : String) == "dependencies") = false from rfl,
    show (("tooth" : String) == "information") = false from rfl,
    show (("tooth" : String) == "placement") = false from rfl,
    show (("tooth" : String) == "tooth") = true from rfl,
    show (("version" : String) == "dependencies") = false from rfl,
    show (("version" : String) == "information") = false from rfl,
    show (("version" : String) == "placement") = false from rfl,
    show (("version" : String) == "tooth") = false from rfl,
    show (("version" : String) == "version") = true from rfl,
    show (("dependencies" : String) == "dependencies") = true from rfl,
    show (("information" : String) == "dependencies") = false from rfl,
    show (("information" : String) == "information") = true from rfl,
    show (("placement" : String) == "dependencies") = false from rfl,
    show (("placement" : String) == "information") = false from rfl,
    show (("placement" : String) == "placement") = true from rfl]
  rw [hlower, if_pos htooth, Version.newFromString_toStr]
  rw [hdl, hinfo, hplc]
  simp [hdeps]

/-- Every placement entry the decoder accepts passed the token check. -/
theorem decodePlacement_tokens : ∀ {xs : List Json} {l : List PlacementStruct},
    decodePlacement xs = .ok l →
      ∀ p ∈ l, tokenOK p.source ∧ tokenOK p.destination := by
  intro xs
  induction xs with
  | nil =>
    intro l h p hp
    simp only [decodePlacement] at h
    injection h with h
    subst h
    cases hp
  | cons x rest ih =>
    intro l h p hp
    cases x with
    | obj pkvs =>
      simp only [decodePlacement] at h
      cases hsrc : List.lookup "source" pkvs with
      | none => rw [hsrc] at h; exact DRes.noConfusion h
      | some v =>
        rw [hsrc] at h
        cases v with
        | str source =>
          cases hdst : List.lookup "destination" pkvs with
          | none => rw [hdst] at h; exact DRes.noConfusion h
          | some w =>
            rw [hdst] at h
            cases w with
            | str destination =>
              simp only [] at h
              by_cases h1 : placementFindString source = source
              · rw [if_neg (not_not_intro h1)] at h
                by_cases h2 : placementFindString destination = destination
                · rw [if_neg (not_not_intro h2)] at h
                  cases hrest : decodePlacement rest with
                  | ok ps =>
                    rw [hrest] at h
                    injection h with h
                    subst h
                    rcases List.mem_cons.mp hp with hpe | hpm
                    · subst hpe; exact ⟨h1, h2⟩
                    · exact ih hrest p hpm
                  | err e => rw [hrest] at h; exact DRes.noConfusion h
                  | panicked => rw [hrest] at h; exact DRes.noConfusion h
                · rw [if_pos h2] at h; exact DRes.noConfusion h
              · rw [if_pos h1] at h; exact DRes.noConfusion h
            | null => exact DRes.noConfusion h
            | bool b => exact DRes.noConfusion h
            | num n => exact DRes.noConfusion h
            | arr a => exact DRes.noConfusion h
            | obj o => exact DRes.noConfusion h
        | null => exact DRes.noConfusion h
        | bool b => exact DRes.noConfusion h
        | num n => exact DRes.noConfusion h
        | arr a => exact DRes.noConfusion h
        | obj o => exact DRes.noConfusion h
    | null => simp only [decodePlacement] at h; exact DRes.noConfusion h
    | bool b => simp only [decodePlacement] at h; exact DRes.noConfusion h
    | num n => simp only [decodePlacement] at h; exact DRes.noConfusion h
    | str s => simp only [decodePlacement] at h; exact DRes.noConfusion h
    | arr a => simp only [decodePlacement] at h; exact DRes.noConfusion h

/-- Inversion for a successful decode: the result satisfies the decode-path
invariant, the document was an object carrying a string `tooth` field, and
the stored tooth path is its lower-casing. -/
theorem NewFromJSON_ok_elim : ∀ {j : Json} {m : Metadata},
    NewFromJSON j = .ok m →
      ValidMetadata m ∧
        ∃ kvs t, j = Json.obj kvs ∧ List.lookup "tooth" kvs = some (Json.str t) ∧
          m.toothPath = goToLower t := by
  intro j m h
  cases j with
  | obj kvs =>
    simp only [NewFromJSON] at h
    cases ht : List.lookup "tooth" kvs with
    | none => rw [ht] at h; exact DRes.noConfusion h
    | some v =>
      rw [ht] at h
      cases v with
      | str tooth =>
        simp only [] at h
        by_cases hval : IsValidToothPath (goToLower tooth) = true
        · rw [if_pos hval] at h
          cases hv1 : List.lookup "version" kvs with
          | none => rw [hv1] at h; exact DRes.noConfusion h
          | some w =>
            rw [hv1] at h
            cases w with
            | str versionStr =>
              simp only [] at h
              cases hv2 : Version.newFromString versionStr with
              | error e => rw [hv2] at h; exact DRes.noConfusion h
              | ok version =>
                rw [hv2] at h
                cases hd1 : List.lookup "dependencies" kvs with
                | none => rw [hd1] at h; exact DRes.noConfusion h
                | some u =>
                  rw [hd1] at h
                  cases u with
                  | obj depEntries =>
                    simp only [] at h
                    cases hd2 : decodeDepsList depEntries with
                    | err e => rw [hd2] at h; exact DRes.noConfusion h
                    | panicked => rw [hd2] at h; exact DRes.noConfusion h
                    | ok deps =>
                      rw [hd2] at h
                      cases hi1 : List.lookup "information" kvs with
                      | none => rw [hi1] at h; exact DRes.noConfusion h
                      | some y =>
                        rw [hi1] at h
                        cases y with
                        | obj infoEntries =>
                          simp only [] at h
                          cases hi2 : decodeInfo infoEntries with
                          | err e => rw [hi2] at h; exact DRes.noConfusion h
                          | panicked => rw [hi2] at h; exact DRes.noConfusion h
                          | ok information =>
                            rw [hi2] at h
                            cases hp1 : List.lookup "placement" kvs with
                            | none => rw [hp1] at h; exact DRes.noConfusion h
                            | some z =>
                              rw [hp1] at h
                              cases z with
                              | arr placementElems =>
                                simp only [] at h
                                cases hp2 : decodePlacement placementElems with
                                | err e =>
                                  rw [hp2] at h; exact DRes.noConfusion h
                                | panicked =>
                                  rw [hp2] at h; exact DRes.noConfusion h
                                | ok placement =>
                                  rw [hp2] at h
                                  injection h with h
                                  subst h
                                  exact ⟨⟨hval, sortDeps_idem deps,
                                    decodePlacement_tokens hp2⟩,
                                    kvs, tooth, rfl, ht, rfl⟩
                              | null => exact DRes.noConfusion h
                              | bool b => exact DRes.noConfusion h
                              | num n => exact DRes.noConfusion h
                              | str s => exact DRes.noConfusion h
                              | obj o => exact DRes.noConfusion h
                        | null => exact DRes.noConfusion h
                        | bool b => exact DRes.noConfusion h
                        | num n => exact DRes.noConfusion h
                        | str s => exact DRes.noConfusion h
                        | arr a => exact DRes.noConfusion h
                  | null => exact DRes.noConfusion h
                  | bool b => exact DRes.noConfusion h
                  | num n => exact DRes.noConfusion h
                  | str s => exact DRes.noConfusion h
                  | arr a => exact DRes.noConfusion h
            | null => exact DRes.noConfusion h
            | bool b => exact DRes.noConfusion h
            | num n => exact DRes.noConfusion h
            | arr a => exact DRes.noConfusion h
            | obj o => exact DRes.noConfusion h
        · rw [if_neg hval] at h; exact DRes.noConfusion h
      | null => exact DRes.noConfusion h
      | bool b => exact DRes.noConfusion h
      | num n => exact DRes.noConfusion h
      | arr a => exact DRes.noConfusion h
      | obj o => exact DRes.noConfusion h
  | null => exact DRes.noConfusion h
  | bool b => exact DRes.noConfusion h
  | num n => exact DRes.noConfusion h
  | str s => exact DRes.noConfusion h
  | arr a => exact DRes.noConfusion h

/-! ## The path authority (`internal/contexts`)

Go strings are byte sequences; paths and URLs are modelled as `List Nat`
with every element below 256. The filesystem visible to `os.Stat` and
`os.MkdirAll` is a function from paths to entry states; `MkdirAll`'s
creation of intermediate parents is not tracked (no claim depends on it). -/

/-- What `os.Stat` reports for a path: an existing directory, an existing
non-directory file, no entry (`IsNotExist`), no entry that `MkdirAll` also
cannot create (for instance permission denied on the parent), or a `Stat`
failure that is not `IsNotExist` (for instance permission denied, or
`ENOTDIR` from a file on the path). -/
inductive FsEntry where
  | dir | file | absent | absentDenied | statDenied
deriving DecidableEq, Repr

/-- A filesystem state. -/
def FS : Type := List Nat → FsEntry

/-- The state after `os.MkdirAll` created `dir`. -/
def FS.mkdir (fs : FS) (dir : List Nat) : FS :=
  fun p => if p = dir then .dir else fs p

/-- ASCII bytes of a string literal. -/
def strBytes (s : String) : List Nat := s.data.map Char.toNat

/-- Path separator byte `/`. -/
def sep : Nat := 47

/-- The parent directory of a path: everything before the last separator.
This is `filepath.Clean (base ++ "/..")` for a clean base that contains a
separator and whose last component is not itself `.` or `..` — the only
shape it is applied to here (`<global>/cache`, whose last component is the
literal `cache`). -/
def parentPath (base : List Nat) : List Nat :=
  ((base.reverse.dropWhile fun b => b != sep).drop 1).reverse

/-- `filepath.Join base name` for a clean, non-empty base path without a
trailing separator, and a separator-free name — the two shapes the path
authority joins (literal directory names, and `QueryEscape` outputs, which
never contain a separator byte). `Join` drops empty elements and runs
`filepath.Clean` on the result, so the empty name and the name `.` yield
the base itself, the name `..` resolves to the base's parent, and every
other separator-free name is an ordinary path element that `Clean` keeps
verbatim. -/
def joinPath (base name : List Nat) : List Nat :=
  if name = [] ∨ name = [46] then base
  else if name = [46, 46] then parentPath base
  else base ++ sep :: name

/-- `contexts.createDirIfNotExist`: `Stat`, then `MkdirAll` only when the
entry does not exist; an existing entry of any kind (directory or not) is
success without any action; a `Stat` failure other than `IsNotExist` is an
error. -/
def createDirIfNotExist (fs : FS) (dir : List Nat) : Except String FS :=
  match fs dir with
  | .dir => .ok fs
  | .file => .ok fs
  | .absent => .ok (fs.mkdir dir)
  | .absentDenied => .error "cannot create directory"
  | .statDenied => .error "cannot get directory info"

/-- `contexts.Context` (the `lipVersion` and `goProxyList` fields play no
role in any path operation and are stored verbatim). -/
structure Context where
  lipVersion : Version
  globalDotLipDir : List Nat
  workspaceDir : List Nat
  goProxyList : List (List Nat)

/-- `Context.GlobalDotLipDir`. -/
def Context.GlobalDotLipDir (ctx : Context) (fs : FS) :
    Except String (FS × List Nat) :=
  match createDirIfNotExist fs ctx.globalDotLipDir with
  | .error e => .error ("cannot create global .lip directory: " ++ e)
  | .ok fs' => .ok (fs', ctx.globalDotLipDir)

/-- `Context.CacheDir`. -/
def Context.CacheDir (ctx : Context) (fs : FS) :
    Except String (FS × List Nat) :=
  match ctx.GlobalDotLipDir fs with
  | .error e => .error ("cannot get global .lip directory: " ++ e)
  | .ok (fs', g) =>
    match createDirIfNotExist fs' (joinPath g (strBytes "cache")) with
    | .error e => .error ("cannot create cache directory: " ++ e)
    | .ok fs'' => .ok (fs'', joinPath g (strBytes "cache"))

/-- `Context.WorkspaceDir`. -/
def Context.WorkspaceDir (ctx : Context) (fs : FS) :
    Except String (FS × List Nat) :=
  match createDirIfNotExist fs ctx.workspaceDir with
  | .error e => .error ("cannot create workspace directory: " ++ e)
  | .ok fs' => .ok (fs', ctx.workspaceDir)

/-- `Context.WorkspaceDotLipDir`. -/
def Context.WorkspaceDotLipDir (ctx : Context) (fs : FS) :
    Except String (FS × List Nat) :=
  match ctx.WorkspaceDir fs with
  | .error e => .error ("cannot get workspace directory: " ++ e)
  | .ok (fs', w) =>
    match createDirIfNotExist fs' (joinPath w (strBytes ".lip")) with
    | .error e => .error ("cannot create workspace .lip directory: " ++ e)
    | .ok fs'' => .ok (fs'', joinPath w (strBytes ".lip"))

/-- `Context.MetadataDir`. -/
def Context.MetadataDir (ctx : Context) (fs : FS) :
    Except String (FS × List Nat) :=
  match ctx.WorkspaceDotLipDir fs with
  | .error e => .error ("cannot get workspace .lip directory: " ++ e)
  | .ok (fs', d) =>
    match createDirIfNotExist fs' (joinPath d (strBytes "metadata")) with
    | .error e => .error ("cannot create metadata directory: " ++ e)
    | .ok fs'' => .ok (fs'', joinPath d (strBytes "metadata"))

/-- `Context.PluginDir`. -/
def Context.PluginDir (ctx : Context) (fs : FS) :
    Except String (FS × List Nat) :=
  match ctx.WorkspaceDotLipDir fs with
  | .error e => .error ("cannot get workspace .lip directory: " ++ e)
  | .ok (fs', d) =>
    match createDirIfNotExist fs' (joinPath d (strBytes "plugins")) with
    | .error e => .error ("cannot create plugin directory: " ++ e)
    | .ok fs'' => .ok (fs'', joinPath d (strBytes "plugins"))

/-! ### Percent escaping (`net/url.QueryEscape`) -/

/-- Bytes `url.QueryEscape` leaves unescaped: ASCII letters, digits, and
`-`, `_`, `.`, `~`. -/
def isUnreservedByte (b : Nat) : Bool :=
  (65 ≤ b && b ≤ 90) || (97 ≤ b && b ≤ 122) || (48 ≤ b && b ≤ 57) ||
    b = 45 || b = 95 || b = 46 || b = 126

/-- Upper-case hexadecimal digit byte of `d < 16`. -/
def hexUpper (d : Nat) : Nat := if d < 10 then 48 + d else 55 + d

/-- `QueryEscape` of a single byte: unreserved bytes stay, space becomes
`+`, everything else becomes `%XX` with upper-case hex. -/
def escapeByte (b : Nat) : List Nat :=
  if isUnreservedByte b then [b]
  else if b = 32 then [43]
  else [37, hexUpper (b / 16), hexUpper (b % 16)]

/-- `url.QueryEscape` over a byte string. -/
def queryEscape : List Nat → List Nat
  | [] => []
  | b :: rest => escapeByte b ++ queryEscape rest

/-- `Context.CalculateCachePath`. -/
def Context.CalculateCachePath (ctx : Context) (fs : FS) (fileURL : List Nat) :
    Except String (FS × List Nat) :=
  match ctx.CacheDir fs with
  | .error e => .error ("cannot get cache directory: " ++ e)
  | .ok (fs', cacheDir) => .ok (fs', joinPath cacheDir (queryEscape fileURL))

/-- `Context.CalculateMetadataPath`. -/
def Context.CalculateMetadataPath (ctx : Context) (fs : FS) (toothRepo : List Nat) :
    Except String (FS × List Nat) :=
  match ctx.MetadataDir fs with
  | .error e => .error ("cannot get metadata directory: " ++ e)
  | .ok (fs', metadataDir) =>
    .ok (fs', joinPath metadataDir (queryEscape toothRepo ++ strBytes ".json"))

/-! ### Injectivity of percent escaping -/

theorem unreserved_bounds {b : Nat} (h : isUnreservedByte b = true) :
    b ≠ 37 ∧ b ≠ 43 := by
  simp only [isUnreservedByte, Bool.or_eq_true, Bool.and_eq_true,
    decide_eq_true_eq] at h
  rcases h with ((((((h1 | h1) | h1) | h1) | h1) | h1) | h1) <;> omega

theorem hexUpper_inj {d e : Nat} (hd : d < 16) (he : e < 16)
    (h : hexUpper d = hexUpper e) : d = e := by
  unfold hexUpper at h
  split_ifs at h <;> omega

theorem escapeByte_ne_nil (b : Nat) : escapeByte b ≠ [] := by
  unfold escapeByte
  split_ifs <;> simp

/-- The escape chunks form a prefix code: equal concatenations starting
with the chunks of two bytes force the bytes (and the tails) to agree. -/
theorem escapeByte_prefix_inj {a b : Nat} (ha : a < 256) (hb : b < 256)
    {xs ys : List Nat} (h : escapeByte a ++ xs = escapeByte b ++ ys) :
    a = b ∧ xs = ys := by
  unfold escapeByte at h
  by_cases h1 : isUnreservedByte a = true
  · rw [if_pos h1] at h
    by_cases h2 : isUnreservedByte b = true
    · rw [if_pos h2] at h
      simp only [List.cons_append, List.nil_append] at h
      injection h with h h'
      exact ⟨h, h'⟩
    · rw [if_neg h2] at h
      by_cases h3 : b = 32
      · rw [if_pos h3] at h
        simp only [List.cons_append, List.nil_append] at h
        injection h with h h'
        exact absurd h (unreserved_bounds h1).2
      · rw [if_neg h3] at h
        simp only [List.cons_append, List.nil_append] at h
        injection h with h h'
        exact absurd h (unreserved_bounds h1).1
  · rw [if_neg h1] at h
    by_cases h3 : a = 32
    · rw [if_pos h3] at h
      by_cases h2 : isUnreservedByte b = true
      · rw [if_pos h2] at h
        simp only [List.cons_append, List.nil_append] at h
        injection h with h h'
        exact absurd h.symm (unreserved_bounds h2).2
      · rw [if_neg h2] at h
        by_cases h4 : b = 32
        · rw [if_pos h4] at h
          simp only [List.cons_append, List.nil_append] at h
          injection h with h h'
          exact ⟨h3.trans h4.symm, h'⟩
        · rw [if_neg h4] at h
          simp only [List.cons_append, List.nil_append] at h
          injection h with h h'
          omega
    · rw [if_neg h3] at h
      by_cases h2 : isUnreservedByte b = true
      · rw [if_pos h2] at h
        simp only [List.cons_append, List.nil_append] at h
        injection h with h h'
        exact absurd h.symm (unreserved_bounds h2).1
      · rw [if_neg h2] at h
        by_cases h4 : b = 32
        · rw [if_pos h4] at h
          simp only [List.cons_append, List.nil_append] at h
          injection h with h h'
          omega
        · rw [if_neg h4] at h
          simp only [List.cons_append, List.nil_append] at h
          injection h with hh h
          injection h with hh1 h
          injection h with hh2 h
          have e1 : a / 16 = b / 16 :=
            hexUpper_inj (by omega) (by omega) hh1
          have e2 : a % 16 = b % 16 :=
            hexUpper_inj (by omega) (by omega) hh2
          exact ⟨by omega, h⟩

/-! ### Helpers for the information-object and path-shape claims -/

/-- The information object carries field `k` as a string. -/
def hasStrField (entries : List (String × Json)) (k : String) : Prop :=
  ∃ s, entries.lookup k = some (Json.str s)

theorem infoField_panicked {entries : List (String × Json)} {k : String}
    (h : ¬ hasStrField entries k) : infoField entries k = .panicked := by
  unfold infoField
  cases hl : List.lookup k entries with
  | none => rfl
  | some v =>
    cases v with
    | str s => exact absurd ⟨s, hl⟩ h
    | null => rfl
    | bool b => rfl
    | num n => rfl
    | arr a => rfl
    | obj o => rfl

theorem infoField_ok {entries : List (String × Json)} {k s : String}
    (h : entries.lookup k = some (Json.str s)) : infoField entries k = .ok s := by
  unfold infoField
  rw [h]

/-- `decodeInfo` either panics or every one of the five fields was present
as a string. -/
theorem decodeInfo_total (entries : List (String × Json)) :
    decodeInfo entries = .panicked ∨
      (hasStrField entries "name" ∧ hasStrField entries "description" ∧
        hasStrField entries "author" ∧ hasStrField entries "license" ∧
        hasStrField entries "homepage") := by
  unfold decodeInfo
  by_cases h1 : hasStrField entries "name"
  case neg => left; rw [infoField_panicked h1]
  obtain ⟨s1, e1⟩ := h1
  rw [infoField_ok e1]
  by_cases h2 : hasStrField entries "description"
  case neg => left; rw [infoField_panicked h2]
  obtain ⟨s2, e2⟩ := h2
  rw [infoField_ok e2]
  by_cases h3 : hasStrField entries "author"
  case neg => left; rw [infoField_panicked h3]
  obtain ⟨s3, e3⟩ := h3
  rw [infoField_ok e3]
  by_cases h4 : hasStrField entries "license"
  case neg => left; rw [infoField_panicked h4]
  obtain ⟨s4, e4⟩ := h4
  rw [infoField_ok e4]
  by_cases h5 : hasStrField entries "homepage"
  case neg => left; rw [infoField_panicked h5]
  obtain ⟨s5, e5⟩ := h5
  rw [infoField_ok e5]
  exact Or.inr ⟨⟨s1, e1⟩, ⟨s2, e2⟩, ⟨s3, e3⟩, ⟨s4, e4⟩, ⟨s5, e5⟩⟩

/-- A missing (or non-string) information field makes `decodeInfo` panic. -/
theorem decodeInfo_panicked {entries : List (String × Json)}
    (h : ¬ hasStrField entries "name" ∨ ¬ hasStrField entries "description" ∨
      ¬ hasStrField entries "author" ∨ ¬ hasStrField entries "license" ∨
      ¬ hasStrField entries "homepage") :
    decodeInfo entries = .panicked := by
  rcases decodeInfo_total entries with hp | ⟨a1, a2, a3, a4, a5⟩
  · exact hp
  · rcases h with h | h | h | h | h
    · exact absurd a1 h
    · exact absurd a2 h
    · exact absurd a3 h
    · exact absurd a4 h
    · exact absurd a5 h

/-- A successful `CacheDir` always returns the `<global>/cache` path. -/
theorem CacheDir_ok_path {ctx : Context} {fs fs' : FS} {p : List Nat}
    (h : ctx.CacheDir fs = .ok (fs', p)) :
    p = joinPath ctx.globalDotLipDir (strBytes "cache") := by
  unfold Context.CacheDir Context.GlobalDotLipDir at h
  cases h1 : createDirIfNotExist fs ctx.globalDotLipDir with
  | error e => rw [h1] at h; exact Except.noConfusion h
  | ok fsa =>
    rw [h1] at h
    simp only [] at h
    cases h2 : createDirIfNotExist fsa
        (joinPath ctx.globalDotLipDir (strBytes "cache")) with
    | error e => rw [h2] at h; exact Except.noConfusion h
    | ok fsb =>
      rw [h2] at h
      simp only [] at h
      injection h with h
      exact (congrArg Prod.snd h.symm : _)

/-- A successful `MetadataDir` always returns the
`<workspace>/.lip/metadata` path. -/
theorem MetadataDir_ok_path {ctx : Context} {fs fs' : FS} {p : List Nat}
    (h : ctx.MetadataDir fs = .ok (fs', p)) :
    p = joinPath (joinPath ctx.workspaceDir (strBytes ".lip"))
      (strBytes "metadata") := by
  unfold Context.MetadataDir Context.WorkspaceDotLipDir Context.WorkspaceDir at h
  cases h1 : createDirIfNotExist fs ctx.workspaceDir with
  | error e => rw [h1] at h; exact Except.noConfusion h
  | ok fsa =>
    rw [h1] at h
    simp only [] at h
    cases h2 : createDirIfNotExist fsa
        (joinPath ctx.workspaceDir (strBytes ".lip")) with
    | error e => rw [h2] at h; exact Except.noConfusion h
    | ok fsb =>
      rw [h2] at h
      simp only [] at h
      cases h3 : createDirIfNotExist fsb
          (joinPath (joinPath ctx.workspaceDir (strBytes ".lip"))
            (strBytes "metadata")) with
      | error e => rw [h3] at h; exact Except.noConfusion h
      | ok fsc =>
        rw [h3] at h
        simp only [] at h
        injection h with h
        exact (congrArg Prod.snd h.symm : _)

/-- A successful `CalculateCachePath` returns
`<global>/cache/<QueryEscape(url)>`. -/
theorem CalculateCachePath_ok {ctx : Context} {fs fs' : FS} {u p : List Nat}
    (h : ctx.CalculateCachePath fs u = .ok (fs', p)) :
    p = joinPath (joinPath ctx.globalDotLipDir (strBytes "cache"))
      (queryEscape u) := by
  unfold Context.CalculateCachePath at h
  cases hc : ctx.CacheDir fs with
  | error e => rw [hc] at h; exact Except.noConfusion h
  | ok pr =>
    obtain ⟨fsa, cd⟩ := pr
    rw [hc] at h
    simp only [] at h
    injection h with h
    have hp : p = joinPath cd (queryEscape u) := congrArg Prod.snd h.symm
    rw [hp, CacheDir_ok_path hc]

/-- A successful `CalculateMetadataPath` returns
`<workspace>/.lip/metadata/<QueryEscape(repo)>.json`. -/
theorem CalculateMetadataPath_ok {ctx : Context} {fs fs' : FS} {u p : List Nat}
    (h : ctx.CalculateMetadataPath fs u = .ok (fs', p)) :
    p = joinPath (joinPath (joinPath ctx.workspaceDir (strBytes ".lip"))
      (strBytes "metadata")) (queryEscape u ++ strBytes ".json") := by
  unfold Context.CalculateMetadataPath at h
  cases hc : ctx.MetadataDir fs with
  | error e => rw [hc] at h; exact Except.noConfusion h
  | ok pr =>
    obtain ⟨fsa, md⟩ := pr
    rw [hc] at h
    simp only [] at h
    injection h with h
    have hp : p = joinPath md (queryEscape u ++ strBytes ".json") :=
      congrArg Prod.snd h.symm
    rw [hp, MetadataDir_ok_path hc]

/-- `QueryEscape` is injective on byte strings. -/
theorem queryEscape_inj : ∀ {u1 u2 : List Nat}, (∀ b ∈ u1, b < 256) →
    (∀ b ∈ u2, b < 256) → queryEscape u1 = queryEscape u2 → u1 = u2 := by
  intro u1
  induction u1 with
  | nil =>
    intro u2 _ _ h
    cases u2 with
    | nil => rfl
    | cons b rest =>
      exfalso
      rw [queryEscape, queryEscape] at h
      exact escapeByte_ne_nil b (List.append_eq_nil.mp h.symm).1
  | cons a rest ih =>
    intro u2 h1 h2 h
    cases u2 with
    | nil =>
      exfalso
      rw [queryEscape, queryEscape] at h
      exact escapeByte_ne_nil a (List.append_eq_nil.mp h).1
    | cons b rest2 =>
      rw [queryEscape, queryEscape] at h
      obtain ⟨hab, ht⟩ := escapeByte_prefix_inj
        (h1 a (List.mem_cons_self a rest)) (h2 b (List.mem_cons_self b rest2)) h
      rw [hab, ih (fun c hc => h1 c (List.mem_cons_of_mem a hc))
        (fun c hc => h2 c (List.mem_cons_of_mem b hc)) ht]

/-! ### Which escapes hit `Clean`'s special elements -/

theorem ne_of_length_ne {α : Type} {l1 l2 : List α}
    (h : l1.length ≠ l2.length) : l1 ≠ l2 :=
  fun he => h (he ▸ rfl)

theorem queryEscape_nil_iff {u : List Nat} : queryEscape u = [] ↔ u = [] := by
  constructor
  · intro h
    cases u with
    | nil => rfl
    | cons a rest =>
      rw [queryEscape] at h
      exact absurd (List.append_eq_nil.mp h).1 (escapeByte_ne_nil a)
  · intro h
    subst h
    rfl

theorem queryEscape_dot_iff {u : List Nat} : queryEscape u = [46] ↔ u = [46] := by
  constructor
  · intro h
    cases u with
    | nil => exact absurd h (by decide)
    | cons a rest =>
      rw [queryEscape] at h
      unfold escapeByte at h
      split_ifs at h with hu1 hu2
      · simp only [List.cons_append, List.nil_append, List.cons.injEq] at h
        rw [h.1, queryEscape_nil_iff.mp h.2]
      · simp at h
      · simp at h
  · intro h
    subst h
    rfl

theorem queryEscape_dotdot_iff {u : List Nat} :
    queryEscape u = [46, 46] ↔ u = [46, 46] := by
  constructor
  · intro h
    cases u with
    | nil => exact absurd h (by decide)
    | cons a rest =>
      rw [queryEscape] at h
      unfold escapeByte at h
      split_ifs at h with hu1 hu2
      · simp only [List.cons_append, List.nil_append, List.cons.injEq] at h
        rw [h.1, queryEscape_dot_iff.mp h.2]
      · simp at h
      · simp at h
  · intro h
    subst h
    rfl

theorem dropWhile_append_of_all {α : Type} {p : α → Bool} {l1 l2 : List α}
    (h : ∀ a ∈ l1, p a = true) :
    (l1 ++ l2).dropWhile p = l2.dropWhile p := by
  induction l1 with
  | nil => rfl
  | cons a tl ih =>
    rw [List.cons_append, List.dropWhile_cons,
      if_pos (h a (List.mem_cons_self a tl))]
    exact ih fun b hb => h b (List.mem_cons_of_mem a hb)

/-- `parentPath` recovers the base when the last component is
separator-free. -/
theorem parentPath_append {g name : List Nat} (h : ∀ b ∈ name, b ≠ sep) :
    parentPath (g ++ sep :: name) = g := by
  unfold parentPath
  rw [List.reverse_append, List.reverse_cons, List.append_assoc]
  rw [dropWhile_append_of_all (fun a ha => by
    rw [List.mem_reverse] at ha
    simp [h a ha])]
  simp [List.dropWhile]

/-- The default branch of `joinPath`: an ordinary path element. -/
theorem joinPath_default {base name : List Nat} (h0 : name ≠ [])
    (h1 : name ≠ [46]) (h2 : name ≠ [46, 46]) :
    joinPath base name = base ++ sep :: name := by
  unfold joinPath
  rw [if_neg (not_or.mpr ⟨h0, h1⟩), if_neg h2]

/-! ## Concrete sample documents used by witnesses and counterexamples -/

/-- A complete, valid `information` object. -/
def infoJ : List (String × Json) :=
  [("name", .str "n"), ("description", .str "d"), ("author", .str "a"),
    ("license", .str "l"), ("homepage", .str "h")]

/-- The decoded form of `infoJ`. -/
def infoR : InfoStruct := ⟨"n", "d", "a", "l", "h"⟩

/-- A manifest document with the given tooth path, version `1.0.0`, the
given dependencies and placement, and the full `infoJ` object. -/
def baseDoc (tooth : String) (deps : List (String × Json))
    (placement : List Json) : Json :=
  .obj [("tooth", .str tooth), ("version", .str "1.0.0"),
    ("dependencies", .obj deps), ("information", .obj infoJ),
    ("placement", .arr placement)]

/-- A sample metadata value exercising every field. -/
def mSample : Metadata :=
  ⟨"example.com/a", ⟨1, 2, 3, ""⟩,
    [("example.com/b", [[⟨.ge, ⟨1, 0, 0, ""⟩⟩, ⟨.lt, ⟨2, 0, 0, ""⟩⟩],
      [⟨.eq, ⟨3, 0, 0, ""⟩⟩]])],
    infoR, [⟨"assets/file.txt", "plugins"⟩]⟩

/-- The spec's §8 example constraint entry:
`[[">=1.0.0", "<2.0.0"], ["3.0.0"]]`. -/
def specEntry : List (List VersionMatch) :=
  [[⟨.ge, ⟨1, 0, 0, ""⟩⟩, ⟨.lt, ⟨2, 0, 0, ""⟩⟩], [⟨.eq, ⟨3, 0, 0, ""⟩⟩]]

/-! ## Claim theorems -/

/-- C1: for every Metadata `m` produced by `NewFromJSON` (or satisfying the
invariant the validated decode path establishes), decoding the document
produced by `Metadata.JSON` — whose value tree is `Metadata.toJsonTree m` —
succeeds and returns `m` field for field, the order of dependency OR-groups
and of the matches inside each group included (they are plain list
equality). -/
theorem C1_roundtrip :
    (∀ m : Metadata, Metadata.JSON m = .ok (serializeJson "" m.toJsonTree ++ "\n")) ∧
      (∀ (j : Json) (m : Metadata), NewFromJSON j = .ok m →
        NewFromJSON m.toJsonTree = .ok m) ∧
      ∀ m : Metadata, ValidMetadata m → NewFromJSON m.toJsonTree = .ok m :=
  ⟨fun _ => rfl,
    fun _ _ h => NewFromJSON_toJsonTree (NewFromJSON_ok_elim h).1,
    fun _ h => NewFromJSON_toJsonTree h⟩

/-- C1 witness: the round trip evaluated at `mSample`. -/
theorem C1_roundtrip_witness : NewFromJSON mSample.toJsonTree = .ok mSample :=
  C1_roundtrip.2.2 mSample (by decide)

/-- C2: a candidate version satisfies a dependency constraint entry iff it
satisfies all matches of at least one OR-group; an empty outer list is
satisfied by no version; a present empty inner group is satisfied by every
version. -/
theorem C2_constraint_semantics :
    ∀ (v : Version) (entry : List (List VersionMatch)),
      (satisfiesEntry entry v = true ↔
        ∃ g ∈ entry, ∀ vm ∈ g, vm.matchesVer v = true) ∧
      satisfiesEntry [] v = false ∧
      ([] ∈ entry → satisfiesEntry entry v = true) := by
  intro v entry
  refine ⟨?_, rfl, ?_⟩
  · simp [satisfiesEntry]
  · intro h
    rw [satisfiesEntry, List.any_eq_true]
    exact ⟨[], h, by simp⟩

/-- C2 witness: the spec's §8 example — `1.5.0` satisfies the first group
and `3.0.0` the second, `2.5.0` satisfies neither; and an entry containing
an empty group is satisfied. -/
theorem C2_constraint_semantics_witness :
    satisfiesEntry specEntry ⟨1, 5, 0, ""⟩ = true ∧
      satisfiesEntry specEntry ⟨2, 5, 0, ""⟩ = false ∧
      satisfiesEntry specEntry ⟨3, 0, 0, ""⟩ = true ∧
      satisfiesEntry [[], specEntry.head!] ⟨9, 9, 9, ""⟩ = true := by
  refine ⟨?_, by decide, ?_, ?_⟩
  · exact (C2_constraint_semantics ⟨1, 5, 0, ""⟩ specEntry).1.mpr
      ⟨specEntry.head!, by decide, by decide⟩
  · exact (C2_constraint_semantics ⟨3, 0, 0, ""⟩ specEntry).1.mpr
      ⟨[⟨.eq, ⟨3, 0, 0, ""⟩⟩], by decide, by decide⟩
  · exact (C2_constraint_semantics ⟨9, 9, 9, ""⟩ [[], specEntry.head!]).2.2
      (by decide)

/-- C9: `NewFromJSON` is not total over well-formed documents: an object
missing the `tooth` field panics on the `nil` type assertion, and a
wrong-typed top-level field (here a numeric `tooth`) panics as well —
neither returns an error value. -/
theorem C9_panic_on_missing_field :
    NewFromJSON (Json.obj []) = .panicked ∧
      NewFromJSON (Json.obj [("tooth", .num 3)]) = .panicked ∧
      (∀ e, NewFromJSON (Json.obj []) ≠ .err e) := by
  refine ⟨rfl, rfl, fun e h => ?_⟩
  rw [show NewFromJSON (Json.obj []) = .panicked from rfl] at h
  exact DRes.noConfusion h

/-- C10: dependency keys are neither validated nor lower-cased: for every
key `k` — upper-case or tooth-path-invalid included — a document whose
dependencies object binds `k` (all other fields valid) decodes
successfully and stores `k` verbatim. -/
theorem C10_dep_keys_verbatim :
    ∀ k : String,
      NewFromJSON (baseDoc "example.com/a" [(k, .arr [])] []) =
        .ok ⟨"example.com/a", ⟨1, 0, 0, ""⟩, [(k, [])], infoR, []⟩ := by
  intro k
  rfl

/-- C3: the check `FindString(tok) != tok` does reject `"a b"` and
`" assets"` (naming the token) and does accept `"assets/file.txt"`, but it
also accepts the empty token — `FindString("")` returns `""`, equal to the
input — although the source's own comment requires tokens to start with a
letter or a digit; the non-emptiness part of the claimed invariant fails. -/
theorem C3_empty_token_accepted :
    NewFromJSON (baseDoc "example.com/a" []
        [.obj [("destination", .str "d"), ("source", .str "")]]) =
      .ok ⟨"example.com/a", ⟨1, 0, 0, ""⟩, [], infoR, [⟨"", "d"⟩]⟩ ∧
      NewFromJSON (baseDoc "example.com/a" []
          [.obj [("destination", .str "d"), ("source", .str "a b")]]) =
        .err ("failed to decode JSON into metadata: invalid source: " ++ "a b") ∧
      NewFromJSON (baseDoc "example.com/a" []
          [.obj [("destination", .str "d"), ("source", .str " assets")]]) =
        .err ("failed to decode JSON into metadata: invalid source: " ++ " assets") ∧
      NewFromJSON (baseDoc "example.com/a" []
          [.obj [("destination", .str "d"), ("source", .str "assets/file.txt")]]) =
        .ok ⟨"example.com/a", ⟨1, 0, 0, ""⟩, [], infoR,
          [⟨"assets/file.txt", "d"⟩]⟩ :=
  ⟨rfl, rfl, rfl, rfl⟩

/-- The information object of `docC4` lacks `homepage`. -/
def docC4 : Json :=
  .obj [("tooth", .str "example.com/a"), ("version", .str "1.0.0"),
    ("dependencies", .obj []),
    ("information", .obj [("name", .str "n"), ("description", .str "d"),
      ("author", .str "a"), ("license", .str "l")]),
    ("placement", .arr [])]

/-- C4 counterexample: a well-formed document whose information object
lacks `homepage` makes `NewFromJSON` panic on the `nil` type assertion —
it does not return a decode error. -/
theorem C4_counterexample :
    NewFromJSON docC4 = .panicked ∧ ∀ e, NewFromJSON docC4 ≠ .err e := by
  refine ⟨rfl, fun e h => ?_⟩
  rw [show NewFromJSON docC4 = .panicked from rfl] at h
  exact DRes.noConfusion h

/-- C4 amended: for every well-formed document that reaches the
information stage (tooth, version and dependencies valid) and whose
information object lacks any of the five fields as a string, `NewFromJSON`
panics via the unchecked type assertion — it never returns a partial
Metadata, but the outcome is a run-time panic, not a returned decode
error. -/
theorem C4_missing_info_panics :
    ∀ (kvs entries : List (String × Json)) (t vs : String) (ver : Version)
      (d : List (String × Json)) (deps : List (String × List (List VersionMatch))),
      kvs.lookup "tooth" = some (.str t) →
      IsValidToothPath (goToLower t) = true →
      kvs.lookup "version" = some (.str vs) →
      Version.newFromString vs = .ok ver →
      kvs.lookup "dependencies" = some (.obj d) →
      decodeDepsList d = .ok deps →
      kvs.lookup "information" = some (.obj entries) →
      (¬ hasStrField entries "name" ∨ ¬ hasStrField entries "description" ∨
        ¬ hasStrField entries "author" ∨ ¬ hasStrField entries "license" ∨
        ¬ hasStrField entries "homepage") →
      NewFromJSON (Json.obj kvs) = .panicked := by
  intro kvs entries t vs ver d deps ht hval hv hver hd hdl hi hmiss
  have hpan := decodeInfo_panicked hmiss
  simp [NewFromJSON, ht, hval, hv, hver, hd, hdl, hi, hpan]

/-- C4 witness: the amended claim at `docC4`. -/
theorem C4_missing_info_panics_witness : NewFromJSON docC4 = .panicked :=
  C4_missing_info_panics _ _ "example.com/a" "1.0.0" ⟨1, 0, 0, ""⟩ [] []
    rfl (by decide) rfl rfl rfl rfl rfl
    (Or.inr (Or.inr (Or.inr (Or.inr fun h => by
      obtain ⟨s, hs⟩ := h
      exact Option.noConfusion hs))))

/-- C6: the decoder lower-cases the `tooth` value before validating it: a
successful decode stores exactly the lower-casing (which then passes the
path predicate), and a value whose lower-casing fails the predicate yields
the decode error naming the offending (lower-cased) path. -/
theorem C6_tooth_lowercase :
    ∀ (kvs : List (String × Json)) (t : String),
      kvs.lookup "tooth" = some (.str t) →
      ((∀ m, NewFromJSON (Json.obj kvs) = .ok m →
          m.toothPath = goToLower t ∧ IsValidToothPath m.toothPath = true) ∧
        (IsValidToothPath (goToLower t) = false →
          NewFromJSON (Json.obj kvs) =
            .err ("failed to decode JSON into metadata: invalid tooth path: " ++
              goToLower t))) := by
  intro kvs t ht
  constructor
  · intro m h
    obtain ⟨⟨hvalid, _, _⟩, kvs', t', hj, ht', htp⟩ := NewFromJSON_ok_elim h
    injection hj with hj
    subst hj
    rw [ht] at ht'
    injection ht' with ht'
    injection ht' with ht'
    subst ht'
    exact ⟨htp, hvalid⟩
  · intro hval
    simp [NewFromJSON, ht, hval]

/-- C6 witness: `"com.Example/Pkg"` decodes to the lower-cased valid path
`"com.example/pkg"`, and the invalid value `"!!"` is rejected with the
decode error naming it. -/
theorem C6_tooth_lowercase_witness :
    ((⟨"com.example/pkg", ⟨1, 0, 0, ""⟩, [], infoR, []⟩ : Metadata).toothPath =
        goToLower "com.Example/Pkg" ∧
      IsValidToothPath
        (⟨"com.example/pkg", ⟨1, 0, 0, ""⟩, [], infoR, []⟩ : Metadata).toothPath =
          true) ∧
      NewFromJSON (baseDoc "!!" [] []) =
        .err ("failed to decode JSON into metadata: invalid tooth path: " ++
          goToLower "!!") := by
  constructor
  · exact (C6_tooth_lowercase
      [("tooth", .str "com.Example/Pkg"), ("version", .str "1.0.0"),
        ("dependencies", .obj []), ("information", .obj infoJ),
        ("placement", .arr [])]
      "com.Example/Pkg" rfl).1 _ rfl
  · exact (C6_tooth_lowercase
      [("tooth", .str "!!"), ("version", .str "1.0.0"),
        ("dependencies", .obj []), ("information", .obj infoJ),
        ("placement", .arr [])]
      "!!" rfl).2 (by decide)

/-- A context rooted at `/g` (global) and `/w` (workspace). -/
def ctx0 : Context := ⟨⟨0, 0, 0, ""⟩, strBytes "/g", strBytes "/w", []⟩

/-- A filesystem in which the global `.lip` path exists as a plain file. -/
def fsFileAtG : FS := fun p => if p = strBytes "/g" then .file else .absent

/-- A filesystem in which every path is an existing directory. -/
def fsAllDirs : FS := fun _ => .dir

/-- C5 counterexample: with the target path existing as a non-directory
file, `GlobalDotLipDir` succeeds (Stat succeeds, so `createDirIfNotExist`
returns nil without checking the entry kind) — the claimed IOError does
not occur. -/
theorem C5_counterexample :
    ctx0.GlobalDotLipDir fsFileAtG = .ok (fsFileAtG, strBytes "/g") ∧
      ∀ e, ctx0.GlobalDotLipDir fsFileAtG ≠ .error e := by
  refine ⟨rfl, fun e h => ?_⟩
  rw [show ctx0.GlobalDotLipDir fsFileAtG = .ok (fsFileAtG, strBytes "/g")
    from rfl] at h
  exact Except.noConfusion h

/-- C5 amended: for the six directory operations, an already existing
directory chain is a no-op success returning the same path, and "does not
exist yet" is not an error (the directory is created); but an existing
non-directory entry at the target is also silent success (no creation, no
error) — only a failing `Stat` (other than not-exist) or a failing
`MkdirAll` is an error. -/
theorem C5_dir_ops :
    ∀ (ctx : Context) (fs : FS) (d : List Nat),
      (fs ctx.globalDotLipDir = .dir →
        ctx.GlobalDotLipDir fs = .ok (fs, ctx.globalDotLipDir)) ∧
      (fs ctx.globalDotLipDir = .dir →
        fs (joinPath ctx.globalDotLipDir (strBytes "cache")) = .dir →
        ctx.CacheDir fs =
          .ok (fs, joinPath ctx.globalDotLipDir (strBytes "cache"))) ∧
      (fs ctx.workspaceDir = .dir →
        ctx.WorkspaceDir fs = .ok (fs, ctx.workspaceDir)) ∧
      (fs ctx.workspaceDir = .dir →
        fs (joinPath ctx.workspaceDir (strBytes ".lip")) = .dir →
        ctx.WorkspaceDotLipDir fs =
          .ok (fs, joinPath ctx.workspaceDir (strBytes ".lip"))) ∧
      (fs ctx.workspaceDir = .dir →
        fs (joinPath ctx.workspaceDir (strBytes ".lip")) = .dir →
        fs (joinPath (joinPath ctx.workspaceDir (strBytes ".lip"))
          (strBytes "metadata")) = .dir →
        ctx.MetadataDir fs =
          .ok (fs, joinPath (joinPath ctx.workspaceDir (strBytes ".lip"))
            (strBytes "metadata"))) ∧
      (fs ctx.workspaceDir = .dir →
        fs (joinPath ctx.workspaceDir (strBytes ".lip")) = .dir →
        fs (joinPath (joinPath ctx.workspaceDir (strBytes ".lip"))
          (strBytes "plugins")) = .dir →
        ctx.PluginDir fs =
          .ok (fs, joinPath (joinPath ctx.workspaceDir (strBytes ".lip"))
            (strBytes "plugins"))) ∧
      (fs d = .absent → createDirIfNotExist fs d = .ok (fs.mkdir d)) ∧
      (fs ctx.globalDotLipDir = .absent →
        ctx.GlobalDotLipDir fs =
          .ok (fs.mkdir ctx.globalDotLipDir, ctx.globalDotLipDir)) ∧
      (fs d = .file → createDirIfNotExist fs d = .ok fs) ∧
      (fs d = .statDenied →
        createDirIfNotExist fs d = .error "cannot get directory info") ∧
      (fs d = .absentDenied →
        createDirIfNotExist fs d = .error "cannot create directory") := by
  intro ctx fs d
  refine ⟨fun h1 => ?_, fun h1 h2 => ?_, fun h1 => ?_, fun h1 h2 => ?_,
    fun h1 h2 h3 => ?_, fun h1 h2 h3 => ?_, fun h1 => ?_, fun h1 => ?_,
    fun h1 => ?_, fun h1 => ?_, fun h1 => ?_⟩ <;>
  simp [Context.GlobalDotLipDir, Context.CacheDir, Context.WorkspaceDir,
    Context.WorkspaceDotLipDir, Context.MetadataDir, Context.PluginDir,
    createDirIfNotExist, *]

/-- C5 witness: the amended behaviour at concrete filesystems: a no-op
`MetadataDir` on an all-directories filesystem, creation on an absent
entry, silent success on a file entry, and an error on a denied `Stat`. -/
theorem C5_dir_ops_witness :
    ctx0.MetadataDir fsAllDirs =
        .ok (fsAllDirs, joinPath (joinPath (strBytes "/w") (strBytes ".lip"))
          (strBytes "metadata")) ∧
      createDirIfNotExist (fun _ => .absent) (strBytes "/x") =
        .ok (FS.mkdir (fun _ => .absent) (strBytes "/x")) ∧
      createDirIfNotExist (fun _ => .file) (strBytes "/x") =
        .ok (fun _ => .file) ∧
      createDirIfNotExist (fun _ => .statDenied) (strBytes "/x") =
        .error "cannot get directory info" :=
  ⟨(C5_dir_ops ctx0 fsAllDirs []).2.2.2.2.1 rfl rfl rfl,
    (C5_dir_ops ctx0 (fun _ => .absent) (strBytes "/x")).2.2.2.2.2.2.1 rfl,
    (C5_dir_ops ctx0 (fun _ => .file) (strBytes "/x")).2.2.2.2.2.2.2.2.1 rfl,
    (C5_dir_ops ctx0 (fun _ => .statDenied)
      (strBytes "/x")).2.2.2.2.2.2.2.2.2.1 rfl⟩

/-- C7 counterexample: the distinct URLs `""` and `"."` give two
successful `CalculateCachePath` calls that return the *same* path — the
cache directory itself. `QueryEscape` leaves both strings intact,
`filepath.Join` drops the empty element and `Clean` folds the `.`
element, so the claimed collision-freedom for distinct URLs fails. -/
theorem C7_counterexample :
    ctx0.CalculateCachePath fsAllDirs (strBytes "") =
        .ok (fsAllDirs, strBytes "/g/cache") ∧
      ctx0.CalculateCachePath fsAllDirs (strBytes ".") =
        .ok (fsAllDirs, strBytes "/g/cache") ∧
      strBytes "" ≠ strBytes "." :=
  ⟨rfl, rfl, by decide⟩

/-- C7 amended: for a fixed context, successful path calculations are
deterministic (equal keys give equal paths, also across filesystem
states), and `CalculateMetadataPath` is collision-free for distinct keys
(the appended `.json` keeps every escaped key an ordinary path element);
`CalculateCachePath` is collision-free except that the URLs `""` and `"."`
both resolve to the cache directory itself — two cache paths are equal iff
the URLs are equal or both URLs lie in `{"", "."}`. (A `".."` URL resolves
to the parent of the cache directory and collides with nothing else.) -/
theorem C7_path_injective :
    (∀ (ctx : Context) (fs1 fs2 r1 r2 : FS) (u1 u2 p1 p2 : List Nat),
      (∀ b ∈ u1, b < 256) → (∀ b ∈ u2, b < 256) →
      ctx.CalculateCachePath fs1 u1 = .ok (r1, p1) →
      ctx.CalculateCachePath fs2 u2 = .ok (r2, p2) →
      (p1 = p2 ↔ (u1 = u2 ∨
        ((u1 = [] ∨ u1 = strBytes ".") ∧ (u2 = [] ∨ u2 = strBytes "."))))) ∧
      ∀ (ctx : Context) (fs1 fs2 r1 r2 : FS) (u1 u2 p1 p2 : List Nat),
        (∀ b ∈ u1, b < 256) → (∀ b ∈ u2, b < 256) →
        ctx.CalculateMetadataPath fs1 u1 = .ok (r1, p1) →
        ctx.CalculateMetadataPath fs2 u2 = .ok (r2, p2) →
        (p1 = p2 ↔ u1 = u2) := by
  constructor
  · intro ctx fs1 fs2 r1 r2 u1 u2 p1 p2 hb1 hb2 h1 h2
    have hbase : joinPath ctx.globalDotLipDir (strBytes "cache") =
        ctx.globalDotLipDir ++ sep :: strBytes "cache" :=
      joinPath_default (by decide) (by decide) (by decide)
    have hlg : (ctx.globalDotLipDir ++ sep :: strBytes "cache").length =
        ctx.globalDotLipDir.length + 6 := by
      rw [List.length_append, show (sep :: strBytes "cache").length = 6 from rfl]
    have hp1 := CalculateCachePath_ok h1
    have hp2 := CalculateCachePath_ok h2
    rw [hbase] at hp1 hp2
    rw [show strBytes "." = [46] from rfl]
    have classify : ∀ (u p : List Nat),
        p = joinPath (ctx.globalDotLipDir ++ sep :: strBytes "cache")
          (queryEscape u) →
        ((u = [] ∨ u = [46]) ∧
            p = ctx.globalDotLipDir ++ sep :: strBytes "cache") ∨
          (u = [46, 46] ∧ p = ctx.globalDotLipDir) ∨
          (¬(u = [] ∨ u = [46]) ∧ u ≠ [46, 46] ∧
            p = (ctx.globalDotLipDir ++ sep :: strBytes "cache") ++
              sep :: queryEscape u) := by
      intro u p hp
      by_cases hdeg : u = [] ∨ u = [46]
      · refine Or.inl ⟨hdeg, ?_⟩
        rcases hdeg with h | h <;> subst h <;> exact hp.trans rfl
      · by_cases hdd : u = [46, 46]
        · refine Or.inr (Or.inl ⟨hdd, ?_⟩)
          subst hdd
          rw [hp, show queryEscape [46, 46] = [46, 46] from rfl]
          unfold joinPath
          rw [if_neg (by decide), if_pos rfl]
          exact parentPath_append (by decide)
        · refine Or.inr (Or.inr ⟨hdeg, hdd, ?_⟩)
          rw [hp]
          exact joinPath_default
            (fun h => hdeg (Or.inl (queryEscape_nil_iff.mp h)))
            (fun h => hdeg (Or.inr (queryEscape_dot_iff.mp h)))
            (fun h => hdd (queryEscape_dotdot_iff.mp h))
    rcases classify u1 p1 hp1 with ⟨hu1, hq1⟩ | ⟨hu1, hq1⟩ | ⟨hu1a, hu1b, hq1⟩ <;>
      rcases classify u2 p2 hp2 with ⟨hu2, hq2⟩ | ⟨hu2, hq2⟩ | ⟨hu2a, hu2b, hq2⟩ <;>
      subst hq1 <;> subst hq2
    · exact ⟨fun _ => Or.inr ⟨hu1, hu2⟩, fun _ => rfl⟩
    · constructor
      · intro h
        exact absurd h (ne_of_length_ne (by rw [hlg]; omega))
      · rintro (h | ⟨_, h2⟩)
        · rw [h, hu2] at hu1
          simp at hu1
        · rw [hu2] at h2
          simp at h2
    · constructor
      · intro h
        have hl := congrArg List.length h
        simp only [List.length_append, List.length_cons] at hl
        exact absurd hl (by omega)
      · rintro (h | ⟨_, hh2⟩)
        · rw [h] at hu1
          exact absurd hu1 hu2a
        · exact absurd hh2 hu2a
    · constructor
      · intro h
        exact absurd h (ne_of_length_ne (by rw [hlg]; omega))
      · rintro (h | ⟨h1', _⟩)
        · rw [← h, hu1] at hu2
          simp at hu2
        · rw [hu1] at h1'
          simp at h1'
    · subst hu1
      subst hu2
      simp
    · constructor
      · intro h
        have hl := congrArg List.length h
        simp only [List.length_append, List.length_cons] at hl
        exact absurd hl (by omega)
      · rintro (h | ⟨h1', _⟩)
        · rw [hu1] at h
          exact absurd h.symm hu2b
        · rw [hu1] at h1'
          simp at h1'
    · constructor
      · intro h
        have hl := congrArg List.length h
        simp only [List.length_append, List.length_cons] at hl
        exact absurd hl.symm (by omega)
      · rintro (h | ⟨hh1, _⟩)
        · rw [← h] at hu2
          exact absurd hu2 hu1a
        · exact absurd hh1 hu1a
    · constructor
      · intro h
        have hl := congrArg List.length h
        simp only [List.length_append, List.length_cons] at hl
        exact absurd hl.symm (by omega)
      · rintro (h | ⟨h1', _⟩)
        · rw [hu2] at h
          exact absurd h hu1b
        · exact absurd h1' hu1a
    · constructor
      · intro h
        have h' := List.append_cancel_left h
        injection h' with _ h'
        exact Or.inl (queryEscape_inj hb1 hb2 h')
      · rintro (h | ⟨hh1, _⟩)
        · rw [h]
        · exact absurd hh1 hu1a
  · intro ctx fs1 fs2 r1 r2 u1 u2 p1 p2 hb1 hb2 h1 h2
    have hjl : (strBytes ".json").length = 5 := rfl
    have hname : ∀ u : List Nat,
        joinPath (joinPath (joinPath ctx.workspaceDir (strBytes ".lip"))
            (strBytes "metadata")) (queryEscape u ++ strBytes ".json") =
          (joinPath (joinPath ctx.workspaceDir (strBytes ".lip"))
            (strBytes "metadata")) ++
            sep :: (queryEscape u ++ strBytes ".json") := by
      intro u
      apply joinPath_default <;>
        · apply ne_of_length_ne
          simp only [List.length_append, List.length_cons, List.length_nil, hjl]
          omega
    rw [CalculateMetadataPath_ok h1, CalculateMetadataPath_ok h2,
      hname u1, hname u2]
    constructor
    · intro h
      have h' := List.append_cancel_left h
      injection h' with _ h'
      exact queryEscape_inj hb1 hb2 (List.append_cancel_right h')
    · intro h
      rw [h]

/-- The spec's §8 example URLs. -/
def c7url1 : List Nat := strBytes "https://example.com/x.zip"

/-- A second, distinct URL. -/
def c7url2 : List Nat := strBytes "https://example.com/y.zip"

/-- C7 witness: the cache paths of the two example URLs agree exactly when
the URLs do or both are degenerate (these two are neither equal nor
degenerate). -/
theorem C7_path_injective_witness :
    (joinPath (joinPath (strBytes "/g") (strBytes "cache"))
        (queryEscape c7url1) =
      joinPath (joinPath (strBytes "/g") (strBytes "cache"))
        (queryEscape c7url2)) ↔
      (c7url1 = c7url2 ∨
        ((c7url1 = [] ∨ c7url1 = strBytes ".") ∧
          (c7url2 = [] ∨ c7url2 = strBytes "."))) :=
  C7_path_injective.1 ctx0 fsAllDirs fsAllDirs fsAllDirs fsAllDirs
    c7url1 c7url2
    (joinPath (joinPath (strBytes "/g") (strBytes "cache"))
      (queryEscape c7url1))
    (joinPath (joinPath (strBytes "/g") (strBytes "cache"))
      (queryEscape c7url2))
    (by decide) (by decide) rfl rfl

/-- A sample metadata value whose description contains `<`, `>` and `&`. -/
def mC8 : Metadata :=
  ⟨"example.com/a", ⟨1, 0, 0, ""⟩, [], ⟨"n", "a<b>&c", "a", "l", "h"⟩, []⟩

/-- C8: `Metadata.JSON` never takes its error branch (it is `.ok` of the
serialised tree for every metadata value — determinism is definitional, the
dependency map being emitted in its canonical sorted order); the string
escaper leaves `<`, `>`, `&` and U+2028/U+2029 literal; and the concrete
sample shows the exact 2-space-indented output with those characters
unescaped. -/
theorem C8_encoding :
    (∀ m : Metadata, Metadata.JSON m = .ok (serializeJson "" m.toJsonTree ++ "\n")) ∧
      (∀ c : Char, c ∈ ['<', '>', '&', Char.ofNat 8232, Char.ofNat 8233] →
        jsonEscapeChar c = [c]) ∧
      Metadata.JSON mC8 =
        .ok ("\x7b\n  \"dependencies\": \x7b\x7d,\n  \"information\": \x7b\n    \"author\": \"a\",\n    \"description\": \"a<b>&c\",\n    \"homepage\": \"h\",\n    \"license\": \"l\",\n    \"name\": \"n\"\n  \x7d,\n  \"placement\": [],\n  \"tooth\": \"example.com/a\",\n  \"version\": \"1.0.0\"\n\x7d\n") := by
  refine ⟨fun _ => rfl, ?_, ?_⟩
  · intro c hc
    fin_cases hc <;> rfl
  · show Except.ok (serializeJson "" mC8.toJsonTree ++ "\n") = _
    exact congrArg Except.ok (by set_option maxRecDepth 10000 in decide)

/-- C8 witness: the escaper at `<`. -/
theorem C8_encoding_witness : jsonEscapeChar '<' = ['<'] :=
  C8_encoding.2.1 '<' (by decide)

end LipSpec
